import Mathlib

/-!
Verification development for the p5.js AI editor repository.

This file gives a shallow embedding, in Lean 4, of the parts of the
repository that its specification makes claims about:

* the project/file data model and the file operations of the file
  explorer (`lib/types.ts`, `FileExplorer.tsx`);
* the live-preview document synthesis (`Preview.tsx`, `updateIframe`);
* the relay (bridge) server's event forwarding
  (`websocket-bridge-server.js`, `setupServerHandlers`);
* the controller adapter's tools (`p5js-mcp-server-ts/src/index.ts`);
* the browser session's handling of the `setConsoleHeight` relay event
  (`WebSocketListener.tsx`, `app/project/[id]/page.tsx`).

Strings are modelled as `List Char` so that every operation reduces
inside the kernel (Lean's built-in `String.splitOn`, `String.trim`,
... are implemented on byte positions and do not reduce).  JavaScript
regular expressions built from file names (`new RegExp` with the file
name spliced in, as the code does) are modelled by a small-step
matcher for exactly the pattern shapes the code builds: literal
characters, the character class `[^>]`, the class `["']`, and the
unescaped `.` of a file name, which JavaScript treats as a wildcard
for any character except a line terminator.  Greedy and lazy stars
are resolved by backtracking, as in JavaScript.
-/

set_option maxRecDepth 40000

abbrev Str := List Char

/-- The character list of a string literal. -/
def strOf (s : String) : Str := s.data

/-- The double-quote character. -/
def dquoteChar : Char := Char.ofNat 34

/-- The single-quote (apostrophe) character. -/
def squoteChar : Char := Char.ofNat 39

/-- The dot character. -/
def dotChar : Char := Char.ofNat 46

/-- JavaScript `String.prototype.split(sep)` for a single-character
separator: splits into the (always non-empty) list of segments. -/
def splitOnCh (c : Char) : Str → List Str
  | [] => [[]]
  | d :: rest =>
    let r := splitOnCh c rest
    if d = c then [] :: r
    else
      match r with
      | [] => [[d]]
      | g :: gs => (d :: g) :: gs

/-- JavaScript `name.split('.').pop()`: the last segment of the split
(`split` never returns an empty array, so `pop` is total). -/
def lastSeg (s : Str) : Str := (splitOnCh dotChar s).getLastD []

/-- JavaScript `String.prototype.toLowerCase` (character-wise lowering;
only ASCII matters for the extension comparisons the code performs). -/
def lowerStr (s : Str) : Str := s.map Char.toLower

/-- JavaScript `String.prototype.trim` (strip leading and trailing
whitespace). -/
def trimWs (s : Str) : Str :=
  ((s.dropWhile Char.isWhitespace).reverse.dropWhile Char.isWhitespace).reverse

/-- JavaScript `String.prototype.includes`: substring test. -/
def containsSub (hay needle : Str) : Bool :=
  match hay with
  | [] => needle.isEmpty
  | _ :: t => needle.isPrefixOf hay || containsSub t needle

/-- Index (counted from `acc`) of the first occurrence of `needle` in
`hay`; accumulator form so that evaluation stays shallow. -/
def firstIdxFrom (needle : Str) : Str → Nat → Option Nat
  | [], acc => if needle.isEmpty then some acc else none
  | c :: t, acc =>
    if needle.isPrefixOf (c :: t) then some acc
    else firstIdxFrom needle t (acc + 1)

/-- Index of the first occurrence of `needle` in `hay`
(JavaScript `String.prototype.indexOf`, with `none` for `-1`). -/
def firstIdxOf (hay needle : Str) : Option Nat := firstIdxFrom needle hay 0

/-- Insert `ins` into `s` at position `n` (used for the head
insertions `slice(0, i) + ins + slice(i)` of `updateIframe`). -/
def insertAt (n : Nat) (ins s : Str) : Str := s.take n ++ ins ++ s.drop n

/-- Decimal rendering of a natural number (for the `file-${Date.now()}`
id scheme); fuel-based so that it reduces in the kernel. -/
def natToStrAux : Nat → Nat → Str
  | 0, _ => []
  | fuel + 1, n =>
    if n < 10 then [Char.ofNat (48 + n)]
    else natToStrAux fuel (n / 10) ++ [Char.ofNat (48 + n % 10)]

/-- Decimal rendering of a natural number. -/
def natToStr (n : Nat) : Str := natToStrAux (n + 1) n

/-! ### A matcher for the regular expressions the code builds

The code builds its regular expressions by splicing a file name into a
fixed template (`src=["']NAME["']`, `<script[^>]*src=["']NAME["'][^>]*>.*?</script>`,
`<link[^>]*href=["']NAME["'][^>]*>`).  The tokens that occur are:
literal characters, the class `[^>]`, the class `["']`, and `.` — both
the lazy `.*?` of the script pattern and every unescaped `.` of the
spliced file name, which JavaScript's regex engine treats as "any
character except a line terminator". -/

/-- A single-character regex token. -/
inductive RTok where
  | lit (c : Char)
  | notGt
  | anyChar
  | quote
deriving DecidableEq

/-- A piece of a pattern: a single token, or a starred token, greedy
(`*`) or lazy (`*?`). -/
inductive RPiece where
  | one (t : RTok)
  | star (greedy : Bool) (t : RTok)
deriving DecidableEq

/-- Whether a token matches a character.  `anyChar` is JavaScript's
`.` without the `s` flag: anything but a line terminator. -/
def tokMatch : RTok → Char → Bool
  | .lit c, d => c == d
  | .notGt, d => d != '>'
  | .anyChar, d => d != Char.ofNat 10 && d != Char.ofNat 13
  | .quote, d => d == dquoteChar || d == squoteChar

/-- Length of the longest prefix of `s` every character of which
matches `t`. -/
def tokRun (t : RTok) : Str → Nat
  | [] => 0
  | c :: s => if tokMatch t c then tokRun t s + 1 else 0

/-- First `some` value of `f` over `l`. -/
def firstSome (f : Nat → Option Nat) : List Nat → Option Nat
  | [] => none
  | k :: ks =>
    match f k with
    | some r => some r
    | none => firstSome f ks

/-- Backtracking matcher: `matchPat ps s` is the number of characters
of `s` consumed by a match of the pattern `ps` anchored at the start of
`s`, if one exists.  A greedy star prefers the longest repetition, a
lazy star the shortest, exactly as JavaScript's engine resolves them
for these token-only patterns. -/
def matchPat : List RPiece → Str → Option Nat
  | [], _ => some 0
  | .one _ :: _, [] => none
  | .one t :: ps, c :: s =>
    if tokMatch t c then (matchPat ps s).map (· + 1) else none
  | .star g t :: ps, s =>
    let run := tokRun t s
    let ks := if g then (List.range (run + 1)).reverse else List.range (run + 1)
    firstSome (fun k => (matchPat ps (s.drop k)).map (· + k)) ks

/-- Whether the pattern matches anywhere in `s`. -/
def hasMatch (ps : List RPiece) : Str → Bool
  | [] => (matchPat ps []).isSome
  | c :: t => (matchPat ps (c :: t)).isSome || hasMatch ps t

/-- JavaScript `String.prototype.replace` with a global regex:
replace every (leftmost, non-overlapping) match by `repl`, scanning
left to right.  Fuel-based (the fuel `s.length` always suffices, every
match of the patterns in use consuming at least one character). -/
def replaceAllAux (ps : List RPiece) (repl : Str) : Nat → Str → Str
  | _, [] => []
  | 0, s => s
  | fuel + 1, c :: s =>
    match matchPat ps (c :: s) with
    | some (n + 1) => repl ++ replaceAllAux ps repl fuel ((c :: s).drop (n + 1))
    | some 0 => c :: replaceAllAux ps repl fuel s
    | none => c :: replaceAllAux ps repl fuel s

/-- JavaScript `content.replace(regex, repl)` for a global regex. -/
def replaceAll (ps : List RPiece) (repl : Str) (s : Str) : Str :=
  replaceAllAux ps repl s.length s

/-- Pattern pieces for a literal text. -/
def litsOf (s : Str) : List RPiece := s.map (fun c => .one (.lit c))

/-- Pattern pieces for a file name spliced into a `new RegExp` template:
every character is a literal except `.`, which is unescaped and hence a
wildcard. -/
def namePat (s : Str) : List RPiece :=
  s.map (fun c => if c = dotChar then RPiece.one .anyChar else RPiece.one (.lit c))

/-! ### Data model (`lib/types.ts`, src/unnamed/part_009) -/

/-- The file type enumeration `FileType` of `lib/types.ts`. -/
inductive FileType where
  | js | html | css | txt | jpg | png | gif | mp3 | wav | json
deriving DecidableEq

/-- The `ProjectFile` interface of `lib/types.ts`. -/
structure ProjectFile where
  id : Str
  name : Str
  content : Str
  type : FileType
  lastModified : Nat
deriving DecidableEq

/-- The `Project` interface of `lib/types.ts` (`activeFile` is optional,
`openTabs` is the list of ids of files open in tabs). -/
structure Project where
  id : Str
  name : Str
  files : List ProjectFile
  lastModified : Nat
  activeFile : Option Str
  openTabs : List Str
deriving DecidableEq

/-- The known-extension dispatch of `getFileTypeFromName`, applied to
the already lowercased last dot-segment: the extension itself when it
is in the known list, `txt` otherwise. -/
def fileTypeOfExtLower (e : Str) : FileType :=
  if e = strOf "js" then .js
  else if e = strOf "html" then .html
  else if e = strOf "css" then .css
  else if e = strOf "txt" then .txt
  else if e = strOf "jpg" then .jpg
  else if e = strOf "png" then .png
  else if e = strOf "gif" then .gif
  else if e = strOf "mp3" then .mp3
  else if e = strOf "wav" then .wav
  else if e = strOf "json" then .json
  else .txt

/-- The known extension list of `getFileTypeFromName`. -/
def knownExts : List Str :=
  [strOf "js", strOf "html", strOf "css", strOf "txt", strOf "jpg",
   strOf "png", strOf "gif", strOf "mp3", strOf "wav", strOf "json"]

/-- `getFileTypeFromName` of `lib/types.ts`:
`filename.split('.').pop()?.toLowerCase()`, returned as the type when
in the known list, `txt` otherwise. -/
def getFileTypeFromName (filename : Str) : FileType :=
  fileTypeOfExtLower (lowerStr (lastSeg filename))
/-- Content of the default sketch.js file (src/unnamed/part_009, DEFAULT_PROJECT). -/
def sketchJsContent : Str :=
  strOf "function setup() \x7b\n" ++
  strOf "  createCanvas(800, 500);\n" ++
  strOf "  background(240);\n" ++
  strOf "\x7d\n" ++
  strOf "\n" ++
  strOf "function draw() \x7b\n" ++
  strOf "  // Draw a circle that follows the mouse\n" ++
  strOf "  fill(237, 34, 93);\n" ++
  strOf "  noStroke();\n" ++
  strOf "  ellipse(mouseX, mouseY, 60, 60);\n" ++
  strOf "\x7d"

/-- Content of the default index.html file (src/unnamed/part_009, DEFAULT_PROJECT). -/
def indexHtmlContent : Str :=
  strOf "<!DOCTYPE html>\n" ++
  strOf "<html>\n" ++
  strOf "  <head>\n" ++
  strOf "    <script src=\"https://cdnjs.cloudflare.com/ajax/libs/p5.js/1.9.0/p5.min.js\"></script>\n" ++
  strOf "    <script src=\"sketch.js\"></script>\n" ++
  strOf "    <link rel=\"stylesheet\" type=\"text/css\" href=\"style.css\">\n" ++
  strOf "  </head>\n" ++
  strOf "  <body>\n" ++
  strOf "  </body>\n" ++
  strOf "</html>"

/-- Content of the default style.css file (src/unnamed/part_009, DEFAULT_PROJECT). -/
def styleCssContent : Str :=
  strOf "html, body \x7b\n" ++
  strOf "  margin: 0;\n" ++
  strOf "  padding: 0;\n" ++
  strOf "\x7d\n" ++
  strOf "\n" ++
  strOf "canvas \x7b\n" ++
  strOf "  display: block;\n" ++
  strOf "\x7d"

/-- The console-interception script block, exactly the template literal consoleInterceptor in Preview.tsx updateIframe. -/
def consoleInterceptor : Str :=
  strOf "\n" ++
  strOf "      <script>\n" ++
  strOf "        (function() \x7b\n" ++
  strOf "          const originalConsole = \x7b\n" ++
  strOf "            log: console.log,\n" ++
  strOf "            warn: console.warn,\n" ++
  strOf "            error: console.error,\n" ++
  strOf "            info: console.info\n" ++
  strOf "          \x7d;\n" ++
  strOf "\n" ++
  strOf "          // Override console methods\n" ++
  strOf "          console.log = function() \x7b\n" ++
  strOf "            const args = Array.from(arguments);\n" ++
  strOf "            originalConsole.log.apply(console, args);\n" ++
  strOf "            sendConsoleMessage(\x27log\x27, args);\n" ++
  strOf "          \x7d;\n" ++
  strOf "          \n" ++
  strOf "          console.warn = function() \x7b\n" ++
  strOf "            const args = Array.from(arguments);\n" ++
  strOf "            originalConsole.warn.apply(console, args);\n" ++
  strOf "            sendConsoleMessage(\x27warning\x27, args);\n" ++
  strOf "          \x7d;\n" ++
  strOf "          \n" ++
  strOf "          console.error = function() \x7b\n" ++
  strOf "            const args = Array.from(arguments);\n" ++
  strOf "            originalConsole.error.apply(console, args);\n" ++
  strOf "            sendConsoleMessage(\x27error\x27, args);\n" ++
  strOf "          \x7d;\n" ++
  strOf "          \n" ++
  strOf "          console.info = function() \x7b\n" ++
  strOf "            const args = Array.from(arguments);\n" ++
  strOf "            originalConsole.info.apply(console, args);\n" ++
  strOf "            sendConsoleMessage(\x27info\x27, args);\n" ++
  strOf "          \x7d;\n" ++
  strOf "\n" ++
  strOf "          // Send message to parent\n" ++
  strOf "          function sendConsoleMessage(type, args) \x7b\n" ++
  strOf "            try \x7b\n" ++
  strOf "              const content = args.map(arg => \x7b\n" ++
  strOf "                if (typeof arg === \x27object\x27) \x7b\n" ++
  strOf "                  try \x7b\n" ++
  strOf "                    return JSON.stringify(arg);\n" ++
  strOf "                  \x7d catch (e) \x7b\n" ++
  strOf "                    return String(arg);\n" ++
  strOf "                  \x7d\n" ++
  strOf "                \x7d\n" ++
  strOf "                return String(arg);\n" ++
  strOf "              \x7d).join(\x27 \x27);\n" ++
  strOf "              \n" ++
  strOf "              window.parent.postMessage(\x7b\n" ++
  strOf "                source: \x27p5js-console\x27,\n" ++
  strOf "                type: type,\n" ++
  strOf "                content: content,\n" ++
  strOf "                timestamp: Date.now()\n" ++
  strOf "              \x7d, \x27*\x27);\n" ++
  strOf "            \x7d catch (e) \x7b\n" ++
  strOf "              originalConsole.error(\x27Error sending console message:\x27, e);\n" ++
  strOf "            \x7d\n" ++
  strOf "          \x7d\n" ++
  strOf "\n" ++
  strOf "          // Capture global errors\n" ++
  strOf "          window.addEventListener(\x27error\x27, function(event) \x7b\n" ++
  strOf "            sendConsoleMessage(\x27error\x27, [event.message + \x27 at \x27 + event.filename + \x27:\x27 + event.lineno]);\n" ++
  strOf "          \x7d);\n" ++
  strOf "        \x7d)();\n" ++
  strOf "      </script>\n" ++
  strOf "    "

/-- Fallback document skeleton, text before the project-name interpolation (Preview.tsx updateIframe, no-index.html branch). -/
def fallbackSeg1 : Str :=
  strOf "\n" ++
  strOf "        <!DOCTYPE html>\n" ++
  strOf "        <html>\n" ++
  strOf "        <head>\n" ++
  strOf "          <meta charset=\"utf-8\">\n" ++
  strOf "          <title>"

/-- Fallback document skeleton, text between the project-name and css interpolations. -/
def fallbackSeg2 : Str :=
  strOf "</title>\n" ++
  strOf "          <script src=\"https://cdnjs.cloudflare.com/ajax/libs/p5.js/1.9.0/p5.min.js\"></script>\n" ++
  strOf "          "

/-- Fallback document skeleton, text between the css and js interpolations. -/
def fallbackSeg3 : Str :=
  strOf "\n" ++
  strOf "        </head>\n" ++
  strOf "        <body>\n" ++
  strOf "          "

/-- Fallback document skeleton, text after the js interpolation. -/
def fallbackSeg4 : Str :=
  strOf "\n" ++
  strOf "        </body>\n" ++
  strOf "        </html>\n" ++
  strOf "      "

/-- The p5.js CDN script tag injected before the closing head tag when the document does not already reference p5 (Preview.tsx updateIframe). -/
def p5CdnTag : Str :=
  strOf "<script src=\"https://cdnjs.cloudflare.com/ajax/libs/p5.js/1.9.0/p5.min.js\"></script>\n"

/-- The `sketch.js` entry of `DEFAULT_PROJECT` (the `Date.now()` stamps
are taken as `0`; no claim depends on them). -/
def defaultSketchFile : ProjectFile :=
  { id := strOf "sketch", name := strOf "sketch.js", type := .js,
    lastModified := 0, content := sketchJsContent }

/-- The `index.html` entry of `DEFAULT_PROJECT`. -/
def defaultIndexFile : ProjectFile :=
  { id := strOf "index", name := strOf "index.html", type := .html,
    lastModified := 0, content := indexHtmlContent }

/-- The `style.css` entry of `DEFAULT_PROJECT`. -/
def defaultStyleFile : ProjectFile :=
  { id := strOf "style", name := strOf "style.css", type := .css,
    lastModified := 0, content := styleCssContent }

/-- `DEFAULT_PROJECT` of `lib/types.ts`. -/
def defaultProject : Project :=
  { id := strOf "default"
    name := strOf "Untitled Project"
    lastModified := 0
    files := [defaultSketchFile, defaultIndexFile, defaultStyleFile]
    activeFile := some (strOf "sketch")
    openTabs := [strOf "sketch", strOf "index", strOf "style"] }

/-! ### File operations (`FileExplorer.tsx`, src/unnamed/part_003)

Each handler ends in `onProjectChange({...})`; the embedding returns
the project that is passed there.  The wall-clock `Date.now()` is an
explicit `now` argument. -/

/-- The default content `handleAddFile` gives a new file of each type. -/
def defaultContentFor : FileType → Str
  | .js => strOf "// Your code goes here\n"
  | .html => strOf "<!DOCTYPE html>\n<html>\n<head>\n  <title>Page Title</title>\n</head>\n<body>\n\n</body>\n</html>"
  | .css => strOf "/* Your styles go here */\n"
  | _ => []

/-- `handleAddFile` of `FileExplorer.tsx`: no-op on an empty name,
otherwise append a new file with id `file-${Date.now()}`, type inferred
from the name, default content, and make it active. -/
def handleAddFile (p : Project) (newFileName : Str) (now : Nat) : Project :=
  if newFileName = [] then p
  else
    let fileId := strOf "file-" ++ natToStr now
    let fileType := getFileTypeFromName newFileName
    let newFile : ProjectFile :=
      { id := fileId, name := newFileName, content := defaultContentFor fileType,
        type := fileType, lastModified := now }
    { p with files := p.files ++ [newFile], activeFile := some fileId,
             lastModified := now }

/-- `handleDeleteFile` of `FileExplorer.tsx`: drop the file with the
given id; if it was active, activate the first remaining file (or none);
`openTabs` is not touched by this handler. -/
def handleDeleteFile (p : Project) (fileId : Str) (now : Nat) : Project :=
  let updatedFiles := p.files.filter (fun f => f.id ≠ fileId)
  let activeFile :=
    if p.activeFile = some fileId then updatedFiles.head?.map (fun f => f.id)
    else p.activeFile
  { p with files := updatedFiles, activeFile := activeFile, lastModified := now }

/-- The pattern `src=["']NAME["']` that `handleRenameFile` builds with
`new RegExp` for a renamed script file; the `.` characters of the name
are unescaped, hence wildcards. -/
def renameSrcPat (name : Str) : List RPiece :=
  litsOf (strOf "src=") ++ [.one .quote] ++ namePat name ++ [.one .quote]

/-- The pattern `href=["']NAME["']` that `handleRenameFile` builds for
a renamed style file. -/
def renameHrefPat (name : Str) : List RPiece :=
  litsOf (strOf "href=") ++ [.one .quote] ++ namePat name ++ [.one .quote]

/-- The per-file update function of the `project.files.map` inside
`handleRenameFile`: the renamed file gets its final name and refreshed
type; any other html file gets `src=`/`href=` references to the old
name rewritten (when the renamed file is a script/style file), and is
restamped only when its content actually changed. -/
def renameMapFn (fileId finalName : Str) (fileType : FileType)
    (oldFile : ProjectFile) (now : Nat) (file : ProjectFile) : ProjectFile :=
  if file.id = fileId then
    { file with name := finalName, type := fileType, lastModified := now }
  else if file.type = .html then
    let c1 :=
      if oldFile.type = .js then
        replaceAll (renameSrcPat oldFile.name)
          (strOf "src=\"" ++ finalName ++ strOf "\"") file.content
      else file.content
    let c2 :=
      if oldFile.type = .css then
        replaceAll (renameHrefPat oldFile.name)
          (strOf "href=\"" ++ finalName ++ strOf "\"") c1
      else c1
    if c2 ≠ file.content then { file with content := c2, lastModified := now }
    else file
  else file

/-- `handleRenameFile` of `FileExplorer.tsx`: no-op when the new name
trims to nothing or the file id is unknown; otherwise preserve the old
extension (append it when the new name's last dot-segment differs),
refresh the file type from the final name, and rewrite references in
html files. -/
def handleRenameFile (p : Project) (fileId newName : Str) (now : Nat) : Project :=
  if trimWs newName = [] then p
  else
    match p.files.find? (fun f => f.id == fileId) with
    | none => p
    | some oldFile =>
      let oldExt := lastSeg oldFile.name
      let newExt := lastSeg newName
      let finalName :=
        if oldExt ≠ [] ∧ oldExt ≠ newExt then newName ++ dotChar :: oldExt
        else newName
      let fileType := getFileTypeFromName finalName
      { p with
        files := p.files.map (renameMapFn fileId finalName fileType oldFile now)
        lastModified := now }

/-- A file operation of the file explorer, for stating invariants over
arbitrary operation sequences. -/
inductive FileOp where
  | add (name : Str) (now : Nat)
  | del (fileId : Str) (now : Nat)
  | ren (fileId newName : Str) (now : Nat)

/-- Apply one file operation. -/
def applyFileOp (p : Project) : FileOp → Project
  | .add n now => handleAddFile p n now
  | .del f now => handleDeleteFile p f now
  | .ren f n now => handleRenameFile p f n now

/-- Apply a sequence of file operations, left to right. -/
def applyFileOps (p : Project) (ops : List FileOp) : Project :=
  ops.foldl applyFileOp p

/-- The (decidable) invariant that `activeFile`, if set, is the id of
some file in `files`. -/
def activeFileValid (p : Project) : Bool :=
  match p.activeFile with
  | none => true
  | some fid => p.files.any (fun f => f.id = fid)

/-! ### Live preview synthesis (`Preview.tsx`, `updateIframe`)

`updateIframe` builds the html text loaded into the iframe (via a data
URI); the embedding returns that html text.  It depends only on the
project's file list and name. -/

/-- The pattern `<script[^>]*src=["']NAME["'][^>]*>.*?</script>` built
in `updateIframe` for a script file. -/
def scriptTagPat (name : Str) : List RPiece :=
  litsOf (strOf "<script") ++ [.star true .notGt] ++ litsOf (strOf "src=") ++
  [.one .quote] ++ namePat name ++ [.one .quote] ++ [.star true .notGt] ++
  litsOf (strOf ">") ++ [.star false .anyChar] ++ litsOf (strOf "</script>")

/-- The pattern `<link[^>]*href=["']NAME["'][^>]*>` built in
`updateIframe` for a style file. -/
def linkTagPat (name : Str) : List RPiece :=
  litsOf (strOf "<link") ++ [.star true .notGt] ++ litsOf (strOf "href=") ++
  [.one .quote] ++ namePat name ++ [.one .quote] ++ [.star true .notGt] ++
  litsOf (strOf ">")

/-- The `project.files.forEach` loop of `updateIframe`: inline each
non-entry script file into a matching script tag and each non-entry
style file into a matching link tag, in file-list order. -/
def inlineFileRefs (files : List ProjectFile) (html0 : Str) : Str :=
  files.foldl
    (fun htmlContent file =>
      let htmlContent :=
        if file.type = .js ∧ file.name ≠ strOf "index.html" then
          replaceAll (scriptTagPat file.name)
            (strOf "<script>" ++ file.content ++ strOf "</script>") htmlContent
        else htmlContent
      if file.type = .css ∧ file.name ≠ strOf "index.html" then
        replaceAll (linkTagPat file.name)
          (strOf "<style>" ++ file.content ++ strOf "</style>") htmlContent
      else htmlContent)
    html0

/-- The no-entry-markup fallback document of `updateIframe`: a skeleton
with the project name as title, the p5 CDN tag, the first style file
inlined, and every script file inlined in file-list order. -/
def fallbackHtml (files : List ProjectFile) (projectName : Str) : Str :=
  let cssContent :=
    match files.find? (fun f => f.type == FileType.css) with
    | some cssFile => strOf "<style>" ++ cssFile.content ++ strOf "</style>"
    | none => []
  let jsContent :=
    (strOf "\n").intercalate
      ((files.filter (fun f => f.type = .js)).map
        (fun f => strOf "<script>" ++ f.content ++ strOf "</script>"))
  fallbackSeg1 ++ projectName ++ fallbackSeg2 ++ cssContent ++ fallbackSeg3 ++
    jsContent ++ fallbackSeg4

/-- Inject the p5 CDN tag immediately before `</head>` unless the
document already mentions `p5.js` or `p5.min.js`. -/
def injectP5 (htmlContent : Str) : Str :=
  if containsSub htmlContent (strOf "p5.js") ||
     containsSub htmlContent (strOf "p5.min.js") then htmlContent
  else
    match firstIdxOf htmlContent (strOf "</head>") with
    | some headEndIndex => insertAt headEndIndex p5CdnTag htmlContent
    | none => htmlContent

/-- Insert the console interceptor right after `<head>` (the code's
`indexOf('<head>') + 6` with the `> 5` found-check). -/
def injectInterceptor (htmlContent : Str) : Str :=
  match firstIdxOf htmlContent (strOf "<head>") with
  | some i => insertAt (i + 6) consoleInterceptor htmlContent
  | none => htmlContent

/-- The html text `updateIframe` synthesizes from a file list and
project name: entry file `index.html` with references inlined when it
exists, the fallback skeleton otherwise, then p5 injection and the
console interceptor. -/
def buildPreviewHtml (files : List ProjectFile) (projectName : Str) : Str :=
  let base :=
    match files.find? (fun f => f.name == strOf "index.html") with
    | some htmlFile => inlineFileRefs files htmlFile.content
    | none => fallbackHtml files projectName
  injectInterceptor (injectP5 base)

/-- `updateIframe`'s synthesized document for a project. -/
def updateIframeHtml (p : Project) : Str := buildPreviewHtml p.files p.name

/-! ### The relay (bridge) server (`websocket-bridge-server.js`)

`setupServerHandlers` registers one forwarding handler per event of a
fixed catalog, each doing `socket.broadcast.emit(name, data)` (all
connected peers except the sender); `ping` is answered with `pong` to
the sender only; `projectState` and `getProjectState` are logged but
forwarded to nobody, as is any unknown event (the `onAny` handler only
logs).  Peers are identified by numbers; payloads are an arbitrary
type, carried verbatim. -/

/-- The event names the bridge server forwards. -/
def relayForwardedEvents : List Str :=
  [strOf "codeUpdate", strOf "startExecution", strOf "stopExecution",
   strOf "toggleExecution", strOf "clearConsole", strOf "addConsoleMessage",
   strOf "setConsoleHeight", strOf "selectFile", strOf "closeTab",
   strOf "createFile", strOf "deleteFile", strOf "toggleSidebar",
   strOf "updateProjectName", strOf "backToDashboard"]

/-- The deliveries `(peer, event, payload)` the bridge server makes on
receiving `(ev, payload)` from `sender` while `connected` lists the
connected peers. -/
def bridgeDeliveries {α : Type} (connected : List Nat) (sender : Nat)
    (ev : Str) (payload : α) : List (Nat × Str × α) :=
  if ev = strOf "ping" then [(sender, strOf "pong", payload)]
  else if ev ∈ relayForwardedEvents then
    (connected.filter (fun p => p ≠ sender)).map (fun p => (p, ev, payload))
  else []

/-! ### The controller adapter (`p5js-mcp-server-ts/src/index.ts`)

`sendToEditor` resolves `false` without emitting when the module-level
socket is null or not connected; otherwise it emits inside a
`try`/`catch`, resolving `true` on success and `false` when the emit
throws.  Every tool awaits it and reports a failure text (only
`update_code` additionally flags `isError`).  The embedding is a total
function: nothing ever escapes as an exception. -/

/-- The adapter's connection state: whether `editorSocket` is non-null
and whether `isConnectedToEditor` is set. -/
structure EditorConn where
  hasSocket : Bool
  isConnectedToEditor : Bool
deriving DecidableEq

/-- Outcome of the underlying `socket.emit` call, were it reached. -/
inductive EmitResult where
  | ok
  | threw
deriving DecidableEq

/-- `sendToEditor`: `false` when not connected (without emitting),
otherwise `true` unless the emit throws (the `catch` turns a throw into
`false`). -/
def sendToEditor (conn : EditorConn) (emit : EmitResult) : Bool :=
  if !conn.hasSocket || !conn.isConnectedToEditor then false
  else
    match emit with
    | .ok => true
    | .threw => false

/-- An MCP tool result: the text content and the `isError` flag. -/
structure ToolResult where
  text : Str
  isError : Bool
deriving DecidableEq

/-- The `update_code` tool. -/
def updateCodeTool (conn : EditorConn) (emit : EmitResult) (code : Str)
    (description : Option Str) : ToolResult :=
  if sendToEditor conn emit then
    { text := strOf "✅ Code updated successfully" ++
        (match description with | some d => strOf ": " ++ d | none => []) ++
        strOf "\n\nCode sent:\n\x60\x60\x60javascript\n" ++ code ++ strOf "\n\x60\x60\x60"
      isError := false }
  else
    { text := strOf "❌ Failed to update code. Make sure the p5.js editor is running and MCP is enabled."
      isError := true }

/-- The `start_execution` tool. -/
def startExecutionTool (conn : EditorConn) (emit : EmitResult) : ToolResult :=
  { text := if sendToEditor conn emit then strOf "▶️ Started code execution"
            else strOf "❌ Failed to start execution"
    isError := false }

/-- The `stop_execution` tool. -/
def stopExecutionTool (conn : EditorConn) (emit : EmitResult) : ToolResult :=
  { text := if sendToEditor conn emit then strOf "⏹️ Stopped code execution"
            else strOf "❌ Failed to stop execution"
    isError := false }

/-- The `toggle_execution` tool. -/
def toggleExecutionTool (conn : EditorConn) (emit : EmitResult) : ToolResult :=
  { text := if sendToEditor conn emit then strOf "🔄 Toggled code execution"
            else strOf "❌ Failed to toggle execution"
    isError := false }

/-- The `clear_console` tool. -/
def clearConsoleTool (conn : EditorConn) (emit : EmitResult) : ToolResult :=
  { text := if sendToEditor conn emit then strOf "🧹 Console cleared"
            else strOf "❌ Failed to clear console"
    isError := false }

/-- The `add_console_message` tool. -/
def addConsoleMessageTool (conn : EditorConn) (emit : EmitResult)
    (message ty : Str) : ToolResult :=
  { text := if sendToEditor conn emit then
      strOf "📝 Added " ++ ty ++ strOf " message to console: \"" ++ message ++ strOf "\""
    else strOf "❌ Failed to add console message"
    isError := false }

/-- The `select_file` tool. -/
def selectFileTool (conn : EditorConn) (emit : EmitResult)
    (filename : Str) : ToolResult :=
  { text := if sendToEditor conn emit then strOf "📁 Selected file: " ++ filename
            else strOf "❌ Failed to select file: " ++ filename
    isError := false }

/-- The `create_file` tool. -/
def createFileTool (conn : EditorConn) (emit : EmitResult)
    (name _content : Str) : ToolResult :=
  { text := if sendToEditor conn emit then strOf "📄 Created file: " ++ name
            else strOf "❌ Failed to create file: " ++ name
    isError := false }

/-- The `delete_file` tool. -/
def deleteFileTool (conn : EditorConn) (emit : EmitResult)
    (filename : Str) : ToolResult :=
  { text := if sendToEditor conn emit then strOf "🗑️ Deleted file: " ++ filename
            else strOf "❌ Failed to delete file: " ++ filename
    isError := false }

/-- The `toggle_sidebar` tool. -/
def toggleSidebarTool (conn : EditorConn) (emit : EmitResult) : ToolResult :=
  { text := if sendToEditor conn emit then strOf "📋 Toggled sidebar"
            else strOf "❌ Failed to toggle sidebar"
    isError := false }

/-- The `update_project_name` tool. -/
def updateProjectNameTool (conn : EditorConn) (emit : EmitResult)
    (name : Str) : ToolResult :=
  { text := if sendToEditor conn emit then strOf "📝 Updated project name to: " ++ name
            else strOf "❌ Failed to update project name"
    isError := false }

/-- The `go_to_dashboard` tool. -/
def goToDashboardTool (conn : EditorConn) (emit : EmitResult) : ToolResult :=
  { text := if sendToEditor conn emit then strOf "🏠 Navigated to dashboard"
            else strOf "❌ Failed to navigate to dashboard"
    isError := false }

/-! ### The session's `setConsoleHeight` handling

`WebSocketListener.tsx` dispatches a received `setConsoleHeight` event
to the optional `onConsoleControl` prop
(`callbacksRef.current.onConsoleControl?.('height', height)`); the
project page (`app/project/[id]/page.tsx`, likewise `app/page.tsx`)
renders `<WebSocketListener onCodeUpdate={...} />` and passes no
`onConsoleControl`, so the dispatch is a no-op there.  The `[50,500]`
clamp exists only in the mouse-drag resize handler of the page. -/

/-- The slice of page state the console-height events concern. -/
structure EditorSession where
  consoleHeight : Int
deriving DecidableEq

/-- The props a page passes to `WebSocketListener` (only the console
control callback matters here; `none` models an absent optional prop). -/
structure ListenerProps where
  onConsoleControl : Option (Int → EditorSession → EditorSession)

/-- The props the project page passes: only `onCodeUpdate`, no
`onConsoleControl` (`app/project/[id]/page.tsx` line 358). -/
def projectPageProps : ListenerProps := { onConsoleControl := none }

/-- The listener's `setConsoleHeight` handler:
`onConsoleControl?.('height', height)` — applies the callback when
present, does nothing otherwise. -/
def onSetConsoleHeight (props : ListenerProps) (height : Int)
    (st : EditorSession) : EditorSession :=
  match props.onConsoleControl with
  | some f => f height st
  | none => st

/-- The clamp of the mouse-drag resize handler
(`Math.max(50, Math.min(500, startHeight + deltaY))`). -/
def consoleDragClamp (startHeight deltaY : Int) : Int :=
  max 50 (min 500 (startHeight + deltaY))

/-! ### Concrete instances used by the claim theorems -/

/-- Structural (boolean) string equality, used to let the kernel check
long concrete string equalities with shallow recursion. -/
def eqStr : Str → Str → Bool
  | [], [] => true
  | a :: s, b :: t => a == b && eqStr s t
  | _, _ => false

/-- The inline script block the preview must contain for the default
project: the sketch source verbatim between `<script>` tags. -/
def defaultInlinedScript : Str :=
  strOf "<script>" ++ sketchJsContent ++ strOf "</script>"

/-- The document `updateIframe` synthesizes for `DEFAULT_PROJECT`,
written out: the entry markup up to `<head>`, the console interceptor,
the p5 CDN tag of the entry file, the inlined sketch script, the
inlined style block, and the remainder of the entry markup. -/
def defaultSynthExpected : Str :=
  strOf "<!DOCTYPE html>\n<html>\n  <head>" ++ consoleInterceptor ++
  strOf "\n    <script src=\"https://cdnjs.cloudflare.com/ajax/libs/p5.js/1.9.0/p5.min.js\"></script>\n    " ++
  defaultInlinedScript ++
  strOf "\n    " ++ strOf "<style>" ++ styleCssContent ++ strOf "</style>" ++
  strOf "\n  </head>\n  <body>\n  </body>\n</html>"

/-- A two-file project whose files are both open in tabs; deleting one
exhibits the dangling-tab behavior. -/
def tabsProject : Project :=
  { id := strOf "p1", name := strOf "Tabs", lastModified := 0,
    activeFile := some (strOf "f1"),
    openTabs := [strOf "f1", strOf "f2"],
    files :=
      [ { id := strOf "f1", name := strOf "a.js", content := strOf "// a",
          type := .js, lastModified := 0 }
      , { id := strOf "f2", name := strOf "b.js", content := strOf "// b",
          type := .js, lastModified := 0 } ] }

/-- Markup content that nowhere contains the file name `old.js` as a
substring, but does match the rename pattern for `old.js` (the
unescaped `.` of the name matches the `x`). -/
def unrefHtmlContent : Str :=
  strOf "<head><script src=\"oldxjs\"></script></head>"

/-- A project with a script file `old.js` and markup that references
`oldxjs` but never `old.js`. -/
def unrefProject : Project :=
  { id := strOf "p2", name := strOf "Unref", lastModified := 0,
    activeFile := none, openTabs := [],
    files :=
      [ { id := strOf "s1", name := strOf "old.js", content := strOf "// code",
          type := .js, lastModified := 0 }
      , { id := strOf "h1", name := strOf "index.html", content := unrefHtmlContent,
          type := .html, lastModified := 0 } ] }

/-- Markup content with a genuine `src="old.js"` reference. -/
def refHtmlContent : Str :=
  strOf "<head><script src=\"old.js\"></script></head>"

/-- The script file `old.js` of `refProject`. -/
def refScriptFile : ProjectFile :=
  { id := strOf "s2", name := strOf "old.js", content := strOf "// code",
    type := .js, lastModified := 0 }

/-- A project with a script file `old.js` and markup that references it
as `src="old.js"`. -/
def refProject : Project :=
  { id := strOf "p3", name := strOf "Ref", lastModified := 0,
    activeFile := none, openTabs := [],
    files :=
      [ refScriptFile
      , { id := strOf "h2", name := strOf "index.html", content := refHtmlContent,
          type := .html, lastModified := 0 } ] }

/-! ## Helper lemmas -/

/-- `eqStr` is sound for propositional equality. -/
theorem eqStr_eq {s t : Str} (h : eqStr s t = true) : s = t := by
  induction s generalizing t with
  | nil =>
    cases t with
    | nil => rfl
    | cons b t => simp [eqStr] at h
  | cons a s ih =>
    cases t with
    | nil => simp [eqStr] at h
    | cons b t =>
      simp only [eqStr, Bool.and_eq_true, beq_iff_eq] at h
      rw [h.1, ih h.2]

/-- An extension not in the known list is dispatched to `txt`. -/
theorem fileTypeOfExtLower_unknown (e : Str) (h : ¬ e ∈ knownExts) :
    fileTypeOfExtLower e = FileType.txt := by
  have h1 : ¬ e = strOf "js" := fun hh => h (by rw [hh]; decide)
  have h2 : ¬ e = strOf "html" := fun hh => h (by rw [hh]; decide)
  have h3 : ¬ e = strOf "css" := fun hh => h (by rw [hh]; decide)
  have h4 : ¬ e = strOf "txt" := fun hh => h (by rw [hh]; decide)
  have h5 : ¬ e = strOf "jpg" := fun hh => h (by rw [hh]; decide)
  have h6 : ¬ e = strOf "png" := fun hh => h (by rw [hh]; decide)
  have h7 : ¬ e = strOf "gif" := fun hh => h (by rw [hh]; decide)
  have h8 : ¬ e = strOf "mp3" := fun hh => h (by rw [hh]; decide)
  have h9 : ¬ e = strOf "wav" := fun hh => h (by rw [hh]; decide)
  have h10 : ¬ e = strOf "json" := fun hh => h (by rw [hh]; decide)
  unfold fileTypeOfExtLower
  rw [if_neg h1, if_neg h2, if_neg h3, if_neg h4, if_neg h5, if_neg h6,
      if_neg h7, if_neg h8, if_neg h9, if_neg h10]

/-! ## Claim theorems -/

/-- C1 (counterexample): deleting file `f1` of `tabsProject` — a file
open in a tab — leaves its id in `openTabs` even though no file with
that id remains in `files`: the claimed no-dangling-tabs property is
false for `handleDeleteFile`. -/
theorem C1_counterexample :
    strOf "f1" ∈ (handleDeleteFile tabsProject (strOf "f1") 100).openTabs ∧
    ∀ f ∈ (handleDeleteFile tabsProject (strOf "f1") 100).files,
      ¬ f.id = strOf "f1" := by
  decide

/-- C1 (amended): `handleDeleteFile` removes the file from `files` and
repairs `activeFile`, but does not modify `openTabs` at all, so the
deleted file's id stays in `openTabs` whenever it was an open tab. -/
theorem C1_delete_leaves_openTabs (p : Project) (fileId : Str) (now : Nat) :
    (handleDeleteFile p fileId now).openTabs = p.openTabs := rfl

/-- C2 (counterexample): the bridge server does not forward arbitrary
event names.  With peers 1 and 2 connected, an event named
`projectState` received from peer 1 is delivered to nobody — in
particular not to peer 2, contradicting the claim that every event is
broadcast to all peers except the sender. -/
theorem C2_counterexample :
    bridgeDeliveries [1, 2] 1 (strOf "projectState") (strOf "state") = [] ∧
    ¬ (2, strOf "projectState", strOf "state") ∈
        bridgeDeliveries [1, 2] 1 (strOf "projectState") (strOf "state") := by
  decide

/-- C2 (amended): for every event name in the fixed forwarded catalog
(the fourteen names of `relayForwardedEvents`) the bridge server
delivers the same event with unmodified payload to every currently
connected peer except the sender, and the sender receives nothing. -/
theorem C2_catalog_broadcast_excludes_sender {α : Type}
    (connected : List Nat) (sender : Nat) (ev : Str) (payload : α)
    (h : ev ∈ relayForwardedEvents) :
    bridgeDeliveries connected sender ev payload =
      (connected.filter (fun p => p ≠ sender)).map (fun p => (p, ev, payload)) ∧
    (∀ d ∈ bridgeDeliveries connected sender ev payload,
        ¬ d.1 = sender ∧ d.2.1 = ev ∧ d.2.2 = payload) ∧
    (∀ p ∈ connected, ¬ p = sender →
        (p, ev, payload) ∈ bridgeDeliveries connected sender ev payload) := by
  have hping : ¬ ev = strOf "ping" := by
    intro he
    rw [he] at h
    revert h
    decide
  unfold bridgeDeliveries
  rw [if_neg hping, if_pos h]
  refine ⟨rfl, ?_, ?_⟩
  · intro d hd
    simp only [List.mem_map, List.mem_filter, decide_eq_true_eq] at hd
    obtain ⟨q, ⟨_, hqs⟩, rfl⟩ := hd
    exact ⟨hqs, rfl, rfl⟩
  · intro q hq hqs
    exact List.mem_map.2 ⟨q, List.mem_filter.2 ⟨hq, by simpa⟩, rfl⟩

/-- C2 (witness): the amended theorem applied to the `codeUpdate`
event, sender 2 among connected peers 1, 2, 3. -/
theorem C2_witness :
    bridgeDeliveries [1, 2, 3] 2 (strOf "codeUpdate") (strOf "payload") =
      [(1, strOf "codeUpdate", strOf "payload"),
       (3, strOf "codeUpdate", strOf "payload")] := by
  have h := C2_catalog_broadcast_excludes_sender (α := Str) [1, 2, 3] 2
    (strOf "codeUpdate") (strOf "payload") (by decide)
  rw [h.1]
  decide

/-- C6: when no relay connection is live (`isConnectedToEditor` is
false), `sendToEditor` resolves to `false` without emitting, and every
state-changing tool returns its failure result — `update_code` with
`isError` set, the others with their failure text — as a value of the
(total) embedding, i.e. without an exception escaping. -/
theorem C6_disconnected_tools_fail (conn : EditorConn)
    (h : conn.isConnectedToEditor = false) (emit : EmitResult)
    (code : Str) (description : Option Str) (message ty filename nm cont pn : Str) :
    sendToEditor conn emit = false ∧
    updateCodeTool conn emit code description =
      { text := strOf "❌ Failed to update code. Make sure the p5.js editor is running and MCP is enabled.",
        isError := true } ∧
    startExecutionTool conn emit =
      { text := strOf "❌ Failed to start execution", isError := false } ∧
    stopExecutionTool conn emit =
      { text := strOf "❌ Failed to stop execution", isError := false } ∧
    toggleExecutionTool conn emit =
      { text := strOf "❌ Failed to toggle execution", isError := false } ∧
    clearConsoleTool conn emit =
      { text := strOf "❌ Failed to clear console", isError := false } ∧
    addConsoleMessageTool conn emit message ty =
      { text := strOf "❌ Failed to add console message", isError := false } ∧
    selectFileTool conn emit filename =
      { text := strOf "❌ Failed to select file: " ++ filename, isError := false } ∧
    createFileTool conn emit nm cont =
      { text := strOf "❌ Failed to create file: " ++ nm, isError := false } ∧
    deleteFileTool conn emit filename =
      { text := strOf "❌ Failed to delete file: " ++ filename, isError := false } ∧
    toggleSidebarTool conn emit =
      { text := strOf "❌ Failed to toggle sidebar", isError := false } ∧
    updateProjectNameTool conn emit pn =
      { text := strOf "❌ Failed to update project name", isError := false } ∧
    goToDashboardTool conn emit =
      { text := strOf "❌ Failed to navigate to dashboard", isError := false } := by
  have hs : sendToEditor conn emit = false := by
    simp [sendToEditor, h]
  refine ⟨hs, ?_, ?_, ?_, ?_, ?_, ?_, ?_, ?_, ?_, ?_, ?_, ?_⟩ <;>
    simp [updateCodeTool, startExecutionTool, stopExecutionTool,
          toggleExecutionTool, clearConsoleTool, addConsoleMessageTool,
          selectFileTool, createFileTool, deleteFileTool, toggleSidebarTool,
          updateProjectNameTool, goToDashboardTool, hs]

/-- C6 (witness): the theorem applied to a concrete disconnected
state. -/
theorem C6_witness :
    sendToEditor { hasSocket := true, isConnectedToEditor := false } EmitResult.ok = false ∧
    updateCodeTool { hasSocket := true, isConnectedToEditor := false } EmitResult.ok
        (strOf "code") none =
      { text := strOf "❌ Failed to update code. Make sure the p5.js editor is running and MCP is enabled.",
        isError := true } := by
  have h := C6_disconnected_tools_fail
    { hasSocket := true, isConnectedToEditor := false } rfl EmitResult.ok
    (strOf "code") none [] [] [] [] [] []
  exact ⟨h.1, h.2.1⟩

/-- C7: document synthesis is a function of the project's file list and
name alone — two projects with identical files and name synthesize
byte-identical documents, whatever their other fields are. -/
theorem C7_synthesis_deterministic (p₁ p₂ : Project)
    (hf : p₁.files = p₂.files) (hn : p₁.name = p₂.name) :
    updateIframeHtml p₁ = updateIframeHtml p₂ := by
  unfold updateIframeHtml
  rw [hf, hn]

/-- C7 (witness): the theorem applied to the default project and a copy
differing in id, active file, open tabs and timestamp. -/
theorem C7_witness :
    updateIframeHtml defaultProject =
      updateIframeHtml
        ⟨strOf "different", strOf "Untitled Project",
         [defaultSketchFile, defaultIndexFile, defaultStyleFile], 123, none, []⟩ :=
  C7_synthesis_deterministic _ _ rfl rfl

/-- C8 (failing input evaluated): applying the `setConsoleHeight`
relay operation with value 600 to the project page session at height
200 leaves the height 200, not 500 as documented — the page passes no
`onConsoleControl` callback, so the listener's dispatch is a no-op; the
`[50,500]` clamp exists only in the mouse-drag resize handler. -/
theorem C8_setConsoleHeight_noop :
    onSetConsoleHeight projectPageProps 600 { consoleHeight := 200 } =
      { consoleHeight := 200 } ∧
    onSetConsoleHeight projectPageProps 10 { consoleHeight := 200 } =
      { consoleHeight := 200 } ∧
    ¬ ({ consoleHeight := 200 } : EditorSession) = { consoleHeight := 500 } ∧
    consoleDragClamp 200 400 = 500 ∧
    consoleDragClamp 200 (-190) = 50 ∧
    consoleDragClamp 200 100 = 300 :=
  ⟨rfl, rfl, by decide, by decide, by decide, by decide⟩

/-- C9: the file type computed by `getFileTypeFromName` depends only on
the filename's final dot-segment (its extension as the code computes
it), and any filename whose lowercased extension lies outside the known
set js, html, css, txt, jpg, png, gif, mp3, wav, json gets type `txt`. -/
theorem C9_type_from_extension :
    (∀ n₁ n₂ : Str, lastSeg n₁ = lastSeg n₂ →
        getFileTypeFromName n₁ = getFileTypeFromName n₂) ∧
    (∀ n : Str, ¬ lowerStr (lastSeg n) ∈ knownExts →
        getFileTypeFromName n = FileType.txt) := by
  constructor
  · intro n₁ n₂ h
    unfold getFileTypeFromName
    rw [h]
  · intro n h
    unfold getFileTypeFromName
    exact fileTypeOfExtLower_unknown _ h

/-- C9 (witness): the theorem applied to names with equal extensions
and to a name with an unknown extension. -/
theorem C9_witness :
    getFileTypeFromName (strOf "a.js") = getFileTypeFromName (strOf "b.js") ∧
    getFileTypeFromName (strOf "photo.xyz") = FileType.txt :=
  ⟨C9_type_from_extension.1 (strOf "a.js") (strOf "b.js") (by decide),
   C9_type_from_extension.2 (strOf "photo.xyz") (by decide)⟩

/-! ## Lemmas for C5 -/

/-- `activeFileValid` unfolded to a propositional characterization. -/
theorem activeFileValid_iff (p : Project) :
    activeFileValid p = true ↔
      ∀ x, p.activeFile = some x → ∃ f ∈ p.files, f.id = x := by
  unfold activeFileValid
  cases h : p.activeFile with
  | none => simp
  | some x => simp [List.any_eq_true]

/-- The rename map function never changes a file's id. -/
theorem renameMapFn_id (fileId finalName : Str) (ft : FileType)
    (oldFile : ProjectFile) (now : Nat) (f : ProjectFile) :
    (renameMapFn fileId finalName ft oldFile now f).id = f.id := by
  unfold renameMapFn
  dsimp only
  split_ifs <;> rfl

/-- `handleAddFile` preserves the active-file invariant. -/
theorem activeFileValid_add (p : Project) (n : Str) (now : Nat)
    (hp : activeFileValid p = true) :
    activeFileValid (handleAddFile p n now) = true := by
  unfold handleAddFile
  split_ifs with h1
  · exact hp
  · rw [activeFileValid_iff]
    intro x hx
    simp only [Option.some_inj] at hx
    subst hx
    refine ⟨{ id := strOf "file-" ++ natToStr now, name := n,
              content := defaultContentFor (getFileTypeFromName n),
              type := getFileTypeFromName n, lastModified := now }, ?_, rfl⟩
    simp

/-- The head of a list, when present, is a member. -/
theorem head?_mem {α : Type} {l : List α} {a : α} (h : l.head? = some a) :
    a ∈ l := by
  cases l with
  | nil => simp at h
  | cons b t =>
    simp only [List.head?_cons, Option.some_inj] at h
    rw [← h]
    exact List.mem_cons_self _ _

/-- `handleDeleteFile` preserves the active-file invariant. -/
theorem activeFileValid_delete (p : Project) (fileId : Str) (now : Nat)
    (hp : activeFileValid p = true) :
    activeFileValid (handleDeleteFile p fileId now) = true := by
  rw [activeFileValid_iff] at hp ⊢
  unfold handleDeleteFile
  dsimp only
  split_ifs with h1
  · -- the active file was deleted: new active is the head of the rest
    intro x hx
    cases hh : (p.files.filter fun f => f.id ≠ fileId).head? with
    | none => rw [hh] at hx; simp at hx
    | some f =>
      have hf : f ∈ p.files.filter (fun g => g.id ≠ fileId) := head?_mem hh
      rw [hh] at hx
      simp only [Option.map_some', Option.some_inj] at hx
      exact ⟨f, hf, hx⟩
  · -- a different file was deleted: the active file survives the filter
    intro x hx
    obtain ⟨f, hf, hfid⟩ := hp x hx
    refine ⟨f, List.mem_filter.2 ⟨hf, ?_⟩, hfid⟩
    simp only [decide_eq_true_eq]
    intro hc
    exact h1 (hx.trans (congrArg some (hfid ▸ hc)))

/-- `handleRenameFile` preserves the active-file invariant. -/
theorem activeFileValid_rename (p : Project) (fileId newName : Str) (now : Nat)
    (hp : activeFileValid p = true) :
    activeFileValid (handleRenameFile p fileId newName now) = true := by
  rw [activeFileValid_iff] at hp ⊢
  unfold handleRenameFile
  split_ifs with h1
  · exact hp
  · cases hfind : p.files.find? (fun f => f.id == fileId) with
    | none => simp only [hfind]; exact hp
    | some oldFile =>
      simp only [hfind]
      intro x hx
      obtain ⟨f, hf, hfid⟩ := hp x hx
      exact ⟨renameMapFn fileId _ _ oldFile now f, List.mem_map_of_mem _ hf,
             by rw [renameMapFn_id]; exact hfid⟩

/-- Any sequence of file operations preserves the invariant. -/
theorem activeFileValid_ops (p : Project) (ops : List FileOp)
    (hp : activeFileValid p = true) :
    activeFileValid (applyFileOps p ops) = true := by
  induction ops generalizing p with
  | nil => exact hp
  | cons op ops ih =>
    cases op with
    | add n now => exact ih _ (activeFileValid_add p n now hp)
    | del f now => exact ih _ (activeFileValid_delete p f now hp)
    | ren f n now => exact ih _ (activeFileValid_rename p f n now hp)

/-- C5: after any sequence of add/delete/rename operations the active
file id, when set, names a file present in `files`; deleting the active
file activates the first remaining file in list order when files
remain; adding a file activates the newly created file, which is
present in `files`. -/
theorem C5_activeFile_invariant (p : Project) (ops : List FileOp)
    (hp : activeFileValid p = true) :
    activeFileValid (applyFileOps p ops) = true ∧
    (∀ fileId now f rest, p.activeFile = some fileId →
        p.files.filter (fun g => g.id ≠ fileId) = f :: rest →
        (handleDeleteFile p fileId now).activeFile = some f.id) ∧
    (∀ name now, ¬ name = [] →
        (handleAddFile p name now).activeFile =
          some (strOf "file-" ++ natToStr now) ∧
        (strOf "file-" ++ natToStr now) ∈
          (handleAddFile p name now).files.map (fun f => f.id)) := by
  refine ⟨activeFileValid_ops p ops hp, ?_, ?_⟩
  · intro fileId now f rest hact hfilter
    unfold handleDeleteFile
    dsimp only
    rw [if_pos hact, hfilter]
    rfl
  · intro name now hn
    unfold handleAddFile
    rw [if_neg hn]
    exact ⟨rfl, by simp⟩

/-- C5 (witness): the theorem applied to the default project and a
concrete add/delete/rename sequence. -/
theorem C5_witness :
    activeFileValid (applyFileOps defaultProject
      [FileOp.add (strOf "util.js") 7, FileOp.del (strOf "sketch") 8,
       FileOp.ren (strOf "style") (strOf "theme.css") 9]) = true :=
  (C5_activeFile_invariant defaultProject
    [FileOp.add (strOf "util.js") 7, FileOp.del (strOf "sketch") 8,
     FileOp.ren (strOf "style") (strOf "theme.css") 9] (by decide)).1

/-- C3: synthesizing the preview document for the default project
produces exactly the expected document: the console-interception block
sits at the start of the head (position of `<head>` plus 6, hence
before the inlined script in document order), the sketch source appears
verbatim inside an inline `<script>` block, and no
`<script src="sketch.js">` tag remains. -/
theorem C3_default_project_synthesis :
    updateIframeHtml defaultProject = defaultSynthExpected ∧
    containsSub (updateIframeHtml defaultProject) defaultInlinedScript = true ∧
    containsSub (updateIframeHtml defaultProject)
      (strOf "<script src=\"sketch.js\">") = false ∧
    (firstIdxOf (updateIframeHtml defaultProject) consoleInterceptor).getD 0 =
      (firstIdxOf (updateIframeHtml defaultProject) (strOf "<head>")).getD 9000 + 6 ∧
    (firstIdxOf (updateIframeHtml defaultProject) consoleInterceptor).getD 9000 <
      (firstIdxOf (updateIframeHtml defaultProject) defaultInlinedScript).getD 0 :=
  ⟨eqStr_eq (by decide), by decide, by decide, by decide, by decide⟩

/-! ## Lemmas about `split('.').pop()` (for C10) -/

/-- One unfolding step of `splitOnCh` at a separator character. -/
theorem splitOnCh_cons_self (c : Char) (rest : Str) :
    splitOnCh c (c :: rest) = [] :: splitOnCh c rest := by
  simp [splitOnCh]

/-- One unfolding step of `splitOnCh` at a non-separator character. -/
theorem splitOnCh_cons_ne (c d : Char) (rest : Str) (hd : ¬ d = c) :
    splitOnCh c (d :: rest) =
      (match splitOnCh c rest with
       | [] => [[d]]
       | g :: gs => (d :: g) :: gs) := by
  simp only [splitOnCh]
  rw [if_neg hd]

/-- `split` never returns an empty array. -/
theorem splitOnCh_ne_nil (c : Char) (s : Str) : ¬ splitOnCh c s = [] := by
  cases s with
  | nil => simp [splitOnCh]
  | cons d rest =>
    by_cases hd : d = c
    · subst hd
      rw [splitOnCh_cons_self]
      simp
    · rw [splitOnCh_cons_ne c d rest hd]
      cases splitOnCh c rest <;> simp

/-- The default of `getLastD` is irrelevant for a non-empty list. -/
theorem getLastD_of_ne_nil {α : Type} {l : List α} (h : ¬ l = []) (a b : α) :
    l.getLastD a = l.getLastD b := by
  cases l with
  | nil => exact absurd rfl h
  | cons x t => rw [List.getLastD_cons, List.getLastD_cons]

/-- A one-segment split means the separator does not occur and the
segment is the whole string. -/
theorem splitOnCh_eq_singleton {c : Char} :
    ∀ {s g : Str}, splitOnCh c s = [g] → s = g ∧ ¬ c ∈ s := by
  intro s
  induction s with
  | nil =>
    intro g h
    simp only [splitOnCh, List.cons.injEq, and_true] at h
    exact ⟨h, by simp⟩
  | cons d rest ih =>
    intro g h
    by_cases hd : d = c
    · subst hd
      rw [splitOnCh_cons_self] at h
      obtain ⟨-, hnil⟩ := List.cons.inj h
      exact absurd hnil (splitOnCh_ne_nil d rest)
    · rw [splitOnCh_cons_ne c d rest hd] at h
      cases hr : splitOnCh c rest with
      | nil => exact absurd hr (splitOnCh_ne_nil c rest)
      | cons g' gs =>
        rw [hr] at h
        obtain ⟨hg, hgs⟩ := List.cons.inj h
        subst hgs
        obtain ⟨hrest, hnm⟩ := ih hr
        constructor
        · rw [← hg, hrest]
        · intro hc
          cases List.mem_cons.1 hc with
          | inl hh => exact hd hh.symm
          | inr hh => exact hnm hh

/-- A string with no separator splits into itself alone. -/
theorem splitOnCh_of_not_mem {c : Char} {s : Str} (h : ¬ c ∈ s) :
    splitOnCh c s = [s] := by
  induction s with
  | nil => rfl
  | cons d rest ih =>
    have hd : ¬ d = c := fun hh => h (by rw [← hh]; exact List.mem_cons_self _ _)
    have hr : ¬ c ∈ rest := fun hh => h (List.mem_cons_of_mem _ hh)
    rw [splitOnCh_cons_ne c d rest hd, ih hr]

/-- Splitting at an explicit separator occurrence yields at least two
segments. -/
theorem splitOnCh_append_sep_len (c : Char) (a b : Str) :
    2 ≤ (splitOnCh c (a ++ c :: b)).length := by
  induction a with
  | nil =>
    rw [List.nil_append, splitOnCh_cons_self]
    have := List.length_pos.2 (splitOnCh_ne_nil c b)
    simp only [List.length_cons]
    omega
  | cons d a ih =>
    rw [List.cons_append]
    by_cases hd : d = c
    · subst hd
      rw [splitOnCh_cons_self]
      have := List.length_pos.2 (splitOnCh_ne_nil d (a ++ d :: b))
      simp only [List.length_cons]
      omega
    · rw [splitOnCh_cons_ne c d _ hd]
      cases hr : splitOnCh c (a ++ c :: b) with
      | nil => exact absurd hr (splitOnCh_ne_nil c _)
      | cons g gs =>
        rw [hr] at ih
        simp only [List.length_cons] at ih ⊢
        omega

/-- The last segment after the last separator: the part before an
explicit separator occurrence does not matter. -/
theorem lastSegC_append_sep (c : Char) (a b : Str) :
    (splitOnCh c (a ++ c :: b)).getLastD [] = (splitOnCh c b).getLastD [] := by
  induction a with
  | nil =>
    rw [List.nil_append, splitOnCh_cons_self, List.getLastD_cons]
  | cons d a ih =>
    rw [List.cons_append]
    by_cases hd : d = c
    · subst hd
      rw [splitOnCh_cons_self, List.getLastD_cons]
      exact ih
    · rw [splitOnCh_cons_ne c d _ hd]
      cases hr : splitOnCh c (a ++ c :: b) with
      | nil => exact absurd hr (splitOnCh_ne_nil c _)
      | cons g gs =>
        have hlen := splitOnCh_append_sep_len c a b
        rw [hr] at hlen
        simp only [List.length_cons] at hlen
        have hgs : ¬ gs = [] := by
          intro hh
          rw [hh] at hlen
          simp at hlen
        rw [← ih, hr, List.getLastD_cons, List.getLastD_cons]
        exact getLastD_of_ne_nil hgs _ _

/-- Every string ends in its last dot-segment. -/
theorem lastSegC_suffix (c : Char) (s : Str) :
    ∃ t, s = t ++ (splitOnCh c s).getLastD [] := by
  induction s with
  | nil => exact ⟨[], rfl⟩
  | cons d rest ih =>
    by_cases hd : d = c
    · subst hd
      obtain ⟨t, ht⟩ := ih
      refine ⟨d :: t, ?_⟩
      rw [splitOnCh_cons_self, List.getLastD_cons,
          getLastD_of_ne_nil (splitOnCh_ne_nil d rest) [] []]
      rw [List.cons_append, ← ht]
    · rw [splitOnCh_cons_ne c d rest hd]
      cases hr : splitOnCh c rest with
      | nil => exact absurd hr (splitOnCh_ne_nil c rest)
      | cons g gs =>
        cases gs with
        | nil =>
          obtain ⟨hrest, -⟩ := splitOnCh_eq_singleton hr
          refine ⟨[], ?_⟩
          simp [List.getLastD_cons, hrest]
        | cons e gs' =>
          obtain ⟨t, ht⟩ := ih
          refine ⟨d :: t, ?_⟩
          rw [List.getLastD_cons,
              getLastD_of_ne_nil (by simp : ¬ (e :: gs') = []) (d :: g) g]
          have hlast : (splitOnCh c rest).getLastD [] = (e :: gs').getLastD g := by
            rw [hr, List.getLastD_cons]
          rw [← hlast, List.cons_append, ← ht]

/-- The separator never occurs in the last segment. -/
theorem not_mem_lastSegC (c : Char) (s : Str) :
    ¬ c ∈ (splitOnCh c s).getLastD [] := by
  induction s with
  | nil => simp [splitOnCh]
  | cons d rest ih =>
    by_cases hd : d = c
    · subst hd
      rw [splitOnCh_cons_self, List.getLastD_cons,
          getLastD_of_ne_nil (splitOnCh_ne_nil d rest) [] []]
      exact ih
    · rw [splitOnCh_cons_ne c d rest hd]
      cases hr : splitOnCh c rest with
      | nil => exact absurd hr (splitOnCh_ne_nil c rest)
      | cons g gs =>
        cases gs with
        | nil =>
          obtain ⟨hrest, hnm⟩ := splitOnCh_eq_singleton hr
          simp only [List.getLastD_cons, List.getLastD_nil]
          intro hc
          cases List.mem_cons.1 hc with
          | inl hh => exact hd hh.symm
          | inr hh => exact hnm (hrest ▸ hh)
        | cons e gs' =>
          rw [List.getLastD_cons,
              getLastD_of_ne_nil (by simp : ¬ (e :: gs') = []) (d :: g) g]
          have hlast : (splitOnCh c rest).getLastD [] = (e :: gs').getLastD g := by
            rw [hr, List.getLastD_cons]
          rw [← hlast]
          exact ih

/-- Taking the last segment is idempotent. -/
theorem lastSeg_lastSeg (s : Str) : lastSeg (lastSeg s) = lastSeg s := by
  unfold lastSeg
  rw [splitOnCh_of_not_mem (not_mem_lastSegC dotChar s)]
  rfl

/-- Appending `.ext` makes `ext`'s last segment the last segment. -/
theorem lastSeg_append_ext (a b : Str) :
    lastSeg (a ++ dotChar :: b) = lastSeg b :=
  lastSegC_append_sep dotChar a b

/-- Every string ends in its last dot-segment. -/
theorem lastSeg_suffix (s : Str) : ∃ t, s = t ++ lastSeg s :=
  lastSegC_suffix dotChar s

/-- C10: when the renamed file's current name has a (non-empty) last
dot-segment, `handleRenameFile` preserves that extension: the final
name is the requested name when its last dot-segment already equals the
old extension, and otherwise the old extension is appended
(`sketch.js` → `main` gives `main.js`; `sketch.js` → `main.txt` gives
`main.txt.js`); in either case the new name ends in the old extension
and the file's type — recomputed from the final name — equals the type
derived from the old name, so a file whose stored type matches its name
keeps its type. -/
theorem C10_rename_preserves_extension (p : Project) (fileId newName : Str)
    (now : Nat) (oldFile : ProjectFile)
    (hfind : p.files.find? (fun f => f.id == fileId) = some oldFile)
    (hext : ¬ lastSeg oldFile.name = [])
    (htrim : ¬ trimWs newName = []) :
    ∃ f', f' ∈ (handleRenameFile p fileId newName now).files ∧
      f'.id = oldFile.id ∧
      f'.name = (if lastSeg newName = lastSeg oldFile.name then newName
                 else newName ++ dotChar :: lastSeg oldFile.name) ∧
      lastSeg oldFile.name <:+ f'.name ∧
      f'.type = getFileTypeFromName oldFile.name ∧
      (oldFile.type = getFileTypeFromName oldFile.name →
        f'.type = oldFile.type) := by
  have hmem : oldFile ∈ p.files := List.mem_of_find?_eq_some hfind
  have hid : oldFile.id = fileId := by
    have := List.find?_some hfind
    simpa using this
  unfold handleRenameFile
  rw [if_neg htrim, hfind]
  dsimp only
  refine ⟨renameMapFn fileId
      (if ¬ lastSeg oldFile.name = [] ∧ ¬ lastSeg oldFile.name = lastSeg newName
       then newName ++ dotChar :: lastSeg oldFile.name else newName)
      (getFileTypeFromName
        (if ¬ lastSeg oldFile.name = [] ∧ ¬ lastSeg oldFile.name = lastSeg newName
         then newName ++ dotChar :: lastSeg oldFile.name else newName))
      oldFile now oldFile,
    List.mem_map_of_mem _ hmem, ?_⟩
  unfold renameMapFn
  rw [if_pos hid]
  dsimp only
  by_cases he : lastSeg newName = lastSeg oldFile.name
  · have hcond : ¬ (¬ lastSeg oldFile.name = [] ∧
        ¬ lastSeg oldFile.name = lastSeg newName) := by
      intro hc
      exact hc.2 he.symm
    rw [if_neg hcond, if_pos he]
    obtain ⟨t, ht⟩ := lastSeg_suffix newName
    refine ⟨rfl, rfl, ⟨t, ?_⟩, ?_, ?_⟩
    · rw [← he, ← ht]
    · unfold getFileTypeFromName
      rw [he]
    · intro hty
      rw [hty]
      unfold getFileTypeFromName
      rw [he]
  · have hcond : ¬ lastSeg oldFile.name = [] ∧
        ¬ lastSeg oldFile.name = lastSeg newName :=
      ⟨hext, fun hh => he hh.symm⟩
    rw [if_pos hcond, if_neg he]
    have hty : getFileTypeFromName (newName ++ dotChar :: lastSeg oldFile.name) =
        getFileTypeFromName oldFile.name := by
      unfold getFileTypeFromName
      rw [lastSeg_append_ext, lastSeg_lastSeg]
    refine ⟨rfl, rfl, ⟨newName ++ [dotChar], by simp⟩, hty, ?_⟩
    intro hsty
    rw [hsty]
    exact hty

/-- C10 (witness): renaming `old.js` (file `s2` of `refProject`) to
`main` — the theorem instantiated at a concrete project. -/
theorem C10_witness :
    ∃ f', f' ∈ (handleRenameFile refProject (strOf "s2") (strOf "main") 5).files ∧
      f'.id = refScriptFile.id ∧
      f'.name = (if lastSeg (strOf "main") = lastSeg refScriptFile.name
                 then strOf "main"
                 else strOf "main" ++ dotChar :: lastSeg refScriptFile.name) ∧
      lastSeg refScriptFile.name <:+ f'.name ∧
      f'.type = getFileTypeFromName refScriptFile.name ∧
      (refScriptFile.type = getFileTypeFromName refScriptFile.name →
        f'.type = refScriptFile.type) :=
  C10_rename_preserves_extension refProject (strOf "s2") (strOf "main") 5
    refScriptFile (by decide) (by decide) (by decide)

/-! ## Lemmas about the pattern matcher (for C4) -/

/-- One matcher step on a single-token piece. -/
theorem matchPat_one_cons (t : RTok) (ps : List RPiece) (c : Char) (s : Str) :
    matchPat (.one t :: ps) (c :: s) =
      if tokMatch t c then (matchPat ps s).map (· + 1) else none := rfl

/-- Matching a literal text consumes exactly that text. -/
theorem matchPat_lits_append (u : Str) (ps : List RPiece) (t : Str) :
    matchPat (litsOf u ++ ps) (u ++ t) =
      (matchPat ps t).map (· + u.length) := by
  induction u with
  | nil =>
    simp only [litsOf, List.map_nil, List.nil_append, List.length_nil]
    cases matchPat ps t <;> simp
  | cons c u ih =>
    simp only [litsOf, List.map_cons, List.cons_append, matchPat_one_cons]
    have hc : tokMatch (.lit c) c = true := by simp [tokMatch]
    rw [if_pos hc]
    show (matchPat (litsOf u ++ ps) (u ++ t)).map (· + 1) = _
    rw [ih]
    cases matchPat ps t with
    | none => rfl
    | some n =>
      simp only [Option.map_some', Option.some.injEq, List.length_cons]
      omega

/-- Matching a spliced file name against the name itself consumes
exactly the name (every literal matches itself, and the wildcard that
stands for an unescaped `.` matches the `.`). -/
theorem matchPat_namePat_append (u : Str) (ps : List RPiece) (t : Str) :
    matchPat (namePat u ++ ps) (u ++ t) =
      (matchPat ps t).map (· + u.length) := by
  induction u with
  | nil =>
    simp only [namePat, List.map_nil, List.nil_append, List.length_nil]
    cases matchPat ps t <;> simp
  | cons c u ih =>
    simp only [namePat, List.map_cons, List.cons_append]
    have htail : (matchPat (namePat u ++ ps) (u ++ t)).map (· + 1) =
        (matchPat ps t).map (· + (c :: u).length) := by
      rw [ih]
      cases matchPat ps t with
      | none => rfl
      | some n =>
        simp only [Option.map_some', Option.some.injEq, List.length_cons]
        omega
    by_cases hdot : c = dotChar
    · rw [if_pos hdot, matchPat_one_cons,
        if_pos (show tokMatch RTok.anyChar c = true by rw [hdot]; decide)]
      exact htail
    · rw [if_neg hdot, matchPat_one_cons,
        if_pos (show tokMatch (RTok.lit c) c = true by simp [tokMatch])]
      exact htail

/-- A quote character matches the `["']` class. -/
theorem tokMatch_quote {q : Char} (hq : q = dquoteChar ∨ q = squoteChar) :
    tokMatch .quote q = true := by
  cases hq with
  | inl h => rw [h]; decide
  | inr h => rw [h]; decide

/-- The rename pattern `src=["']NAME["']` matches the literal
occurrence `src="NAME"` (either quote), consuming `NAME.length + 6`
characters. -/
theorem renameSrcPat_matches (nm : Str) (q : Char)
    (hq : q = dquoteChar ∨ q = squoteChar) (b : Str) :
    matchPat (renameSrcPat nm)
      ((strOf "src=" ++ q :: (nm ++ [q])) ++ b) = some (nm.length + 6) := by
  have h0 : matchPat [RPiece.one .quote] (q :: b) = some 1 := by
    rw [matchPat_one_cons, if_pos (tokMatch_quote hq)]
    rfl
  have h1 : matchPat (namePat nm ++ [RPiece.one .quote]) (nm ++ (q :: b)) =
      some (1 + nm.length) := by
    rw [matchPat_namePat_append, h0]
    rfl
  have h2 : matchPat (RPiece.one .quote :: (namePat nm ++ [RPiece.one .quote]))
      (q :: (nm ++ (q :: b))) = some (1 + nm.length + 1) := by
    rw [matchPat_one_cons, if_pos (tokMatch_quote hq), h1]
    rfl
  have h3 : matchPat (litsOf (strOf "src=") ++
      (RPiece.one .quote :: (namePat nm ++ [RPiece.one .quote])))
      (strOf "src=" ++ (q :: (nm ++ (q :: b)))) =
      some (1 + nm.length + 1 + 4) := by
    rw [matchPat_lits_append, h2]
    rfl
  have hshape : (strOf "src=" ++ q :: (nm ++ [q])) ++ b =
      strOf "src=" ++ (q :: (nm ++ (q :: b))) := by
    simp [List.append_assoc]
  have hpat : renameSrcPat nm = litsOf (strOf "src=") ++
      (RPiece.one .quote :: (namePat nm ++ [RPiece.one .quote])) := by
    unfold renameSrcPat
    simp [List.append_assoc]
  rw [hshape, hpat, h3]
  simp only [Option.some.injEq]
  omega

/-- A replacement step at a non-matching position keeps the character. -/
theorem replaceAllAux_cons_none (ps : List RPiece) (repl : Str) (fuel : Nat)
    (c : Char) (s : Str) (h : matchPat ps (c :: s) = none) :
    replaceAllAux ps repl (fuel + 1) (c :: s) =
      c :: replaceAllAux ps repl fuel s := by
  simp only [replaceAllAux, h]

/-- A replacement step at a matching position emits the replacement and
skips the match. -/
theorem replaceAllAux_cons_match (ps : List RPiece) (repl : Str) (fuel : Nat)
    (c : Char) (s : Str) (n : Nat) (h : matchPat ps (c :: s) = some (n + 1)) :
    replaceAllAux ps repl (fuel + 1) (c :: s) =
      repl ++ replaceAllAux ps repl fuel ((c :: s).drop (n + 1)) := by
  simp only [replaceAllAux, h]

/-- If the pattern matches nowhere, the replacement is the identity,
for any fuel. -/
theorem replaceAllAux_no_match (ps : List RPiece) (repl : Str) :
    ∀ (s : Str) (fuel : Nat), hasMatch ps s = false →
      replaceAllAux ps repl fuel s = s := by
  intro s
  induction s with
  | nil => intro fuel _; cases fuel <;> rfl
  | cons c t ih =>
    intro fuel h
    simp only [hasMatch, Bool.or_eq_false_iff] at h
    have hm : matchPat ps (c :: t) = none := by
      cases hmm : matchPat ps (c :: t) with
      | none => rfl
      | some n => rw [hmm] at h; simp at h
    cases fuel with
    | zero => rfl
    | succ fuel => rw [replaceAllAux_cons_none ps repl fuel c t hm, ih fuel h.2]

/-- If the pattern matches nowhere, `replaceAll` is the identity. -/
theorem replaceAll_no_match (ps : List RPiece) (repl : Str) (s : Str)
    (h : hasMatch ps s = false) : replaceAll ps repl s = s :=
  replaceAllAux_no_match ps repl s s.length h

/-- Replacement of a single explicit occurrence: when the pattern
matches exactly the middle text `m` (and at least one character), does
not match at any position inside `a`, and matches nowhere in `b`, the
global replacement rewrites `a ++ m ++ b` to `a ++ repl ++ b`. -/
theorem replaceAllAux_boundary (ps : List RPiece) (repl m b : Str)
    (hm : matchPat ps (m ++ b) = some m.length) (hm1 : 1 ≤ m.length)
    (hb : hasMatch ps b = false) :
    ∀ (a : Str) (fuel : Nat), a.length < fuel →
      (∀ i, i < a.length → matchPat ps ((a ++ m ++ b).drop i) = none) →
      replaceAllAux ps repl fuel (a ++ m ++ b) = a ++ repl ++ b := by
  intro a
  induction a with
  | nil =>
    intro fuel hfuel _
    cases fuel with
    | zero => omega
    | succ fuel =>
      obtain ⟨c, m', rfl⟩ : ∃ c m', m = c :: m' := by
        cases m with
        | nil => simp at hm1
        | cons c m' => exact ⟨c, m', rfl⟩
      simp only [List.nil_append, List.cons_append] at hm ⊢
      rw [List.length_cons] at hm
      rw [replaceAllAux_cons_match ps repl fuel c (m' ++ b) m'.length hm]
      simp only [List.drop_succ_cons]
      rw [List.drop_left, replaceAllAux_no_match ps repl b fuel hb]
  | cons d a ih =>
    intro fuel hfuel hpre
    cases fuel with
    | zero => simp at hfuel
    | succ fuel =>
      have h0 : matchPat ps (d :: (a ++ m ++ b)) = none := by
        have := hpre 0 (by simp)
        simpa using this
      have hrest : ∀ i, i < a.length →
          matchPat ps ((a ++ m ++ b).drop i) = none := by
        intro i hi
        have := hpre (i + 1) (by simp; omega)
        simpa [List.drop_succ_cons] using this
      simp only [List.cons_append]
      rw [replaceAllAux_cons_none ps repl fuel d (a ++ m ++ b) h0,
          ih fuel (by simp at hfuel; omega) hrest]

/-- `replaceAll` of a single explicit occurrence. -/
theorem replaceAll_boundary (ps : List RPiece) (repl a m b : Str)
    (hm : matchPat ps (m ++ b) = some m.length) (hm1 : 1 ≤ m.length)
    (hb : hasMatch ps b = false)
    (hpre : ∀ i, i < a.length → matchPat ps ((a ++ m ++ b).drop i) = none) :
    replaceAll ps repl (a ++ m ++ b) = a ++ repl ++ b := by
  unfold replaceAll
  refine replaceAllAux_boundary ps repl m b hm hm1 hb a (a ++ m ++ b).length
    ?_ hpre
  simp only [List.length_append]
  omega

/-- A file other than the renamed one that is not a markup file is
left untouched by the rename map function, whatever the final name and
type of the renamed file are. -/
theorem renameMapFn_unchanged_nonhtml (fileId finalName : Str) (ft : FileType)
    (oldFile : ProjectFile) (now : Nat) (hf : ProjectFile)
    (hid : ¬ hf.id = fileId) (hhtml : ¬ hf.type = FileType.html) :
    renameMapFn fileId finalName ft oldFile now hf = hf := by
  unfold renameMapFn
  rw [if_neg hid, if_neg hhtml]

/-- A markup file in which neither the `src=` nor the `href=` rename
pattern matches is left untouched by the rename map function, whatever
the renamed file's type (script, style, or other) and whatever the
final name is. -/
theorem renameMapFn_unchanged_nomatch (fileId finalName : Str) (ft : FileType)
    (oldFile : ProjectFile) (now : Nat) (hf : ProjectFile)
    (hid : ¬ hf.id = fileId) (hhtml : hf.type = FileType.html)
    (hnsrc : hasMatch (renameSrcPat oldFile.name) hf.content = false)
    (hnhref : hasMatch (renameHrefPat oldFile.name) hf.content = false) :
    renameMapFn fileId finalName ft oldFile now hf = hf := by
  unfold renameMapFn
  rw [if_neg hid, if_pos hhtml]
  dsimp only
  have hc1 : (if oldFile.type = FileType.js
      then replaceAll (renameSrcPat oldFile.name)
        (strOf "src=\"" ++ finalName ++ strOf "\"") hf.content
      else hf.content) = hf.content := by
    split_ifs with h
    · exact replaceAll_no_match _ _ _ hnsrc
    · rfl
  rw [hc1]
  have hc2 : (if oldFile.type = FileType.css
      then replaceAll (renameHrefPat oldFile.name)
        (strOf "href=\"" ++ finalName ++ strOf "\"") hf.content
      else hf.content) = hf.content := by
    split_ifs with h
    · exact replaceAll_no_match _ _ _ hnhref
    · rfl
  rw [hc2]
  rw [if_neg (show ¬ ¬ hf.content = hf.content from fun hc => hc rfl)]

/-- C4 (amended): for any rename of a file (script, style, or other)
to any new name, a file in which neither rename pattern — `src=`/`href=`
plus either quote around the old name, in which every `.` is an
unescaped regex dot matching any character — matches anywhere is left
entirely unchanged, as is every non-markup file; and renaming a script
file `old.js` to a name with the same extension rewrites a markup
file's `src="old.js"` (or `src='old.js'`) attribute to `src="new.js"`
byte for byte, provided the pattern matches nowhere else in that
file. -/
theorem C4_rename_rewrites_references (p : Project) (fileId newName : Str)
    (now : Nat) (oldFile : ProjectFile)
    (hfind : p.files.find? (fun f => f.id == fileId) = some oldFile)
    (htrim : ¬ trimWs newName = []) :
    (∀ hf, hf ∈ p.files → ¬ hf.id = fileId →
      ((¬ hf.type = FileType.html) →
        hf ∈ (handleRenameFile p fileId newName now).files) ∧
      (hf.type = FileType.html →
        hasMatch (renameSrcPat oldFile.name) hf.content = false →
        hasMatch (renameHrefPat oldFile.name) hf.content = false →
        hf ∈ (handleRenameFile p fileId newName now).files)) ∧
    (oldFile.type = FileType.js → lastSeg newName = lastSeg oldFile.name →
      ∀ hf a b q, hf ∈ p.files → ¬ hf.id = fileId → hf.type = FileType.html →
      (q = dquoteChar ∨ q = squoteChar) →
      hf.content = a ++ (strOf "src=" ++ q :: (oldFile.name ++ [q])) ++ b →
      (∀ i, i < a.length →
        matchPat (renameSrcPat oldFile.name) (hf.content.drop i) = none) →
      hasMatch (renameSrcPat oldFile.name) b = false →
      ∃ hf', hf' ∈ (handleRenameFile p fileId newName now).files ∧
        hf'.id = hf.id ∧
        hf'.content = a ++ (strOf "src=\"" ++ newName ++ strOf "\"") ++ b) := by
  have hfiles : (handleRenameFile p fileId newName now).files =
      p.files.map (renameMapFn fileId
        (if ¬ lastSeg oldFile.name = [] ∧ ¬ lastSeg oldFile.name = lastSeg newName
         then newName ++ dotChar :: lastSeg oldFile.name else newName)
        (getFileTypeFromName
          (if ¬ lastSeg oldFile.name = [] ∧ ¬ lastSeg oldFile.name = lastSeg newName
           then newName ++ dotChar :: lastSeg oldFile.name else newName))
        oldFile now) := by
    unfold handleRenameFile
    rw [if_neg htrim, hfind]
  refine ⟨?_, ?_⟩
  · intro hf hmem hid
    constructor
    · intro hhtml
      rw [hfiles]
      exact renameMapFn_unchanged_nonhtml _ _ _ _ _ _ hid hhtml ▸
        List.mem_map_of_mem _ hmem
    · intro hhtml hnsrc hnhref
      rw [hfiles]
      exact renameMapFn_unchanged_nomatch _ _ _ _ _ _ hid hhtml hnsrc hnhref ▸
        List.mem_map_of_mem _ hmem
  · intro hjs hextEq hf a b q hmem hid hhtml hq hcontent hpre hnb
    have hcss : ¬ oldFile.type = FileType.css := by rw [hjs]; decide
    have hcond : ¬ (¬ lastSeg oldFile.name = [] ∧
        ¬ lastSeg oldFile.name = lastSeg newName) := fun hc => hc.2 hextEq.symm
    rw [if_neg hcond] at hfiles
    have hlen4 : (strOf "src=").length = 4 := rfl
    have hlen : (strOf "src=" ++ q :: (oldFile.name ++ [q])).length =
        oldFile.name.length + 6 := by
      simp only [List.length_append, List.length_cons, List.length_nil, hlen4]
      omega
    have hmq : matchPat (renameSrcPat oldFile.name)
        ((strOf "src=" ++ q :: (oldFile.name ++ [q])) ++ b) =
        some (strOf "src=" ++ q :: (oldFile.name ++ [q])).length := by
      rw [renameSrcPat_matches oldFile.name q hq b, hlen]
    have hrw : replaceAll (renameSrcPat oldFile.name)
        (strOf "src=\"" ++ newName ++ strOf "\"") hf.content =
        a ++ (strOf "src=\"" ++ newName ++ strOf "\"") ++ b := by
      rw [hcontent]
      refine replaceAll_boundary _ _ a _ b hmq (by omega) hnb ?_
      intro i hi
      have := hpre i hi
      rw [hcontent] at this
      exact this
    have hcont : (renameMapFn fileId newName (getFileTypeFromName newName)
        oldFile now hf).content =
        a ++ (strOf "src=\"" ++ newName ++ strOf "\"") ++ b := by
      unfold renameMapFn
      rw [if_neg hid, if_pos hhtml]
      dsimp only
      rw [if_pos hjs, if_neg hcss, hrw]
      split_ifs with hcc
      · rfl
      · rw [not_not] at hcc
        exact hcc.symm
    refine ⟨renameMapFn fileId newName (getFileTypeFromName newName)
        oldFile now hf, ?_, ?_, hcont⟩
    · rw [hfiles]
      exact List.mem_map_of_mem _ hmem
    · exact renameMapFn_id _ _ _ _ _ _

/-- C4 (counterexample): renaming `old.js` (file `s1` of
`unrefProject`) to `new.js` modifies the markup file even though the
name `old.js` occurs nowhere in it — the unescaped `.` of the name acts
as a wildcard, so `src="oldxjs"` is rewritten to `src="new.js"` — which
falsifies the claim that renaming a file referenced in no other file
leaves all other files' content unchanged. -/
theorem C4_counterexample :
    containsSub unrefHtmlContent (strOf "old.js") = false ∧
    ((handleRenameFile unrefProject (strOf "s1") (strOf "new.js") 5).files.map
        (fun f => f.content)) =
      [strOf "// code", strOf "<head><script src=\"new.js\"></script></head>"] ∧
    ¬ strOf "<head><script src=\"new.js\"></script></head>" = unrefHtmlContent := by
  refine ⟨by decide, by decide, by decide⟩

/-- C4 (witness): the amended theorem applied to `refProject`, whose
markup contains exactly one `src="old.js"` reference; renaming `old.js`
to `new.js` rewrites it to `src="new.js"`. -/
theorem C4_witness :
    ∃ hf', hf' ∈ (handleRenameFile refProject (strOf "s2") (strOf "new.js") 5).files ∧
      hf'.id = strOf "h2" ∧
      hf'.content = strOf "<head><script " ++
        (strOf "src=\"" ++ strOf "new.js" ++ strOf "\"") ++
        strOf "></script></head>" := by
  have h := (C4_rename_rewrites_references refProject (strOf "s2")
    (strOf "new.js") 5 refScriptFile (by decide) (by decide)).2
    (by decide) (by decide)
  exact h ⟨strOf "h2", strOf "index.html", refHtmlContent, .html, 0⟩
    (strOf "<head><script ") (strOf "></script></head>") dquoteChar
    (by decide) (by decide) (by decide) (by decide) (by decide)
    (by decide) (by decide)
